import Mathlib

/-!
The nchan memory-store IPC of `src/store/memory/ipc.c`.

A shallow embedding of the pipe registry, the per-slot write queue, the writer
and the reader of nchan's inter-process alert channel, together with the
properties of the specification that are settled against it.

Conventions of the embedding.

* C integers are `Int` (file descriptors, slots, return codes, byte counts) or
  `Nat` (unsigned codes, loop counters).
* `ipc->process[]` is a `List ipc_process_t`; the C array has
  `NGX_MAX_PROCESSES` entries, which is the length of the list.
* Queue nodes (`ipc_writev_data_t`) live in an explicit heap; a pointer is an
  `Option Nat` (`none` is `NULL`).  `ngx_alloc` hands out a fresh address and
  `ngx_free` invalidates the address.
* System calls are answered by the environment: `write` by a stream of
  `write_result`, `read` by a list of `read_result`, `pipe` and
  `ngx_nonblocking` by a `pipe_attempt` per loop index.
* `assert` is compiled in; a failed assertion, and an access through an invalid
  pointer or index, end the run and are reported with the state reached.
-/

namespace Nchan

/-! ## Constants of the host (nginx headers, not part of `ipc.c`) -/

/-- Modelled from the spec: the host return code `NGX_OK` (success), declared in the nginx
core headers and not under `src/`; the value is the one nginx gives it. -/
def NGX_OK : Int := 0
/-- Modelled from the spec: the host return code `NGX_ERROR` (failure), declared in the nginx
core headers and not under `src/`; the value is the one nginx gives it. -/
def NGX_ERROR : Int := -1
/-- Modelled from the spec: the host return code `NGX_AGAIN` (try again later), declared in the nginx
core headers and not under `src/`; the value is the one nginx gives it. -/
def NGX_AGAIN : Int := -2
/-- Modelled from the spec: the invalid descriptor `NGX_INVALID_FILE` of the host, not
under `src/`; the value is the one nginx gives it. -/
def NGX_INVALID_FILE : Int := -1
/-- Modelled from the spec: the would-block errno value `NGX_EAGAIN` of the host, not
under `src/`; the value is that of `EAGAIN` on Linux. -/
def NGX_EAGAIN : Int := 11

/-- Sizes fixed by `ipc.h` and the platform, which are not part of `ipc.c`:
`IPC_DATA_SIZE`, `sizeof(void *)` and `sizeof(ipc_alert_t)`. -/
structure Sizes where
  IPC_DATA_SIZE : Nat
  sizeof_voidp : Nat
  sizeof_alert : Nat
deriving DecidableEq

/-- The payload capacity `IPC_DATA_SIZE * sizeof(void *)` in bytes. -/
def Sizes.capacity (z : Sizes) : Nat := z.IPC_DATA_SIZE * z.sizeof_voidp

/-! ## Data model -/

/-- Modelled from the spec: the wire frame `ipc_alert_t`, declared in `ipc.h` (not under
`src/`), with the fields `ipc.c` accesses; `data` is the payload block, one `Nat` per byte. -/
structure ipc_alert_t where
  src_slot : Int
  dst_slot : Int
  code : Nat
  data : List Nat
deriving DecidableEq

/-- Modelled from the spec: a write-queue node `ipc_writev_data_t`, declared in `ipc.h`
(not under `src/`): the frame and the link to the next node. -/
structure ipc_writev_data_t where
  alert : ipc_alert_t
  next : Option Nat
deriving DecidableEq

/-- What `c->data` points to: the context (read side) or a slot descriptor (write side). -/
inductive conn_data where
  | ipc
  | proc (i : Nat)
deriving DecidableEq

/-- Modelled from the spec: the part of the host type `ngx_connection_t` (not under
`src/`) that `ipc.c` sets or reads: `fd`, `data`, whether `read->handler` and
`write->handler` are set, and whether the read event was added to the reactor. -/
structure ngx_connection_t where
  fd : Int
  data : conn_data
  read_handler : Bool
  write_handler : Bool
  read_event : Bool
deriving DecidableEq

/-- Modelled from the spec: a slot descriptor `ipc_process_t`, declared in `ipc.h` (not
under `src/`): `pipe[0]`, `pipe[1]`, the connection `c`, the queue head and tail, and
the `active` flag.  The back pointer `ipc`, which `ipc.c` only ever sets, is left out. -/
structure ipc_process_t where
  pipe0 : Int
  pipe1 : Int
  c : Option ngx_connection_t
  wevd_first : Option Nat
  wevd_last : Option Nat
  active : Bool
deriving DecidableEq

/-- One `write(fd, alert, sizeof(*alert))` call that did not return `-1`. -/
structure write_call where
  fd : Int
  alert : ipc_alert_t
  n : Int
deriving DecidableEq

/-- The answer of the environment to one `write`: return value and `ngx_errno`. -/
structure write_result where
  n : Int
  errno : Int
deriving DecidableEq

/-- The answer of the environment to one `read`: return value, `ngx_errno` and
the contents of the frame buffer after the call. -/
structure read_result where
  n : Int
  errno : Int
  buf : ipc_alert_t
deriving DecidableEq

/-- The answer of the environment to one provisioning attempt of `ipc_open`:
`pipe()` (`none` is `-1`, otherwise the two descriptors) and whether
`ngx_nonblocking` succeeds on `socks[0]` and on `socks[1]`. -/
structure pipe_attempt where
  pipe_ret : Option (Nat × Nat)
  nonblocking0 : Bool
  nonblocking1 : Bool
deriving DecidableEq

/-- The state of one process as far as `ipc.c` reads or writes it: the globals
`ngx_process_slot` and (the value of) `memstore_slot()`, the static flag of `ipc_open`,
the table `ipc->process`, the heap of queue nodes, the number of `write` calls made,
the log of the `write` calls that did not return `-1`, and the open descriptors. -/
structure State where
  ngx_process_slot : Int
  memstore_slot : Int
  invalid_sockets_initialized : Bool
  process : List ipc_process_t
  heap : List (Option ipc_writev_data_t)
  nwrites : Nat
  written : List write_call
  open_fds : List Int
deriving DecidableEq

/-- How a call ends. -/
inductive Outcome (α : Type) where
  | ok (a : α)
  | assert_failed (st : State)
  | fault (st : State)
  | out_of_fuel
deriving DecidableEq

/-! ## Heap of queue nodes -/

/-- Dereference of a node pointer. -/
def heap_get (h : List (Option ipc_writev_data_t)) (a : Nat) : Option ipc_writev_data_t :=
  (h[a]?).join

/-- The `ngx_alloc` of a node: the fresh address and the heap holding the node
(an allocation that fails is not modelled). -/
def ngx_alloc (h : List (Option ipc_writev_data_t)) (nd : ipc_writev_data_t) :
    Nat × List (Option ipc_writev_data_t) :=
  (h.length, h ++ [some nd])

/-- The `ngx_free` of a node. -/
def ngx_free (h : List (Option ipc_writev_data_t)) (a : Nat) : List (Option ipc_writev_data_t) :=
  h.set a none

/-- The store `p->next = nx`. -/
def heap_set_next (h : List (Option ipc_writev_data_t)) (a : Nat) (nx : Option Nat) :
    Option (List (Option ipc_writev_data_t)) :=
  match heap_get h a with
  | none => none
  | some nd => some (h.set a (some { nd with next := nx }))

/-! ## Writer -/

/-- The function `ipc_write_alert_fd`: one `write` of a frame.  Any return value
other than `-1` yields `NGX_OK`; `-1` yields `NGX_AGAIN` for `NGX_EAGAIN` and
runs into `assert(0)` otherwise. -/
def ipc_write_alert_fd (w : Nat → write_result) (st : State) (fd : Int) (alert : ipc_alert_t) :
    Outcome (Int × State) :=
  let r := w st.nwrites
  let st1 := { st with nwrites := st.nwrites + 1 }
  if r.n = -1 then
    if r.errno = NGX_EAGAIN then .ok (NGX_AGAIN, st1)
    else .assert_failed st1
  else .ok (NGX_OK, { st1 with written := st1.written ++ [⟨fd, alert, r.n⟩] })

/-- The `for` loop of `ipc_write_handler`, from `cur`; the result is the final `cur`. -/
def ipc_write_loop (w : Nat → write_result) (fd : Int) :
    Nat → State → Option Nat → Outcome (State × Option Nat)
  | 0, _, _ => .out_of_fuel
  | _ + 1, st, none => .ok (st, none)
  | fuel + 1, st, some a =>
    match heap_get st.heap a with
    | none => .fault st
    | some nd =>
      match ipc_write_alert_fd w st fd nd.alert with
      | .ok (rc, st1) =>
        if rc = NGX_OK then
          ipc_write_loop w fd fuel { st1 with heap := ngx_free st1.heap a } nd.next
        else .ok (st1, some a)
      | .assert_failed s => .assert_failed s
      | .fault s => .fault s
      | .out_of_fuel => .out_of_fuel

/-- The function `ipc_write_handler`, called on the write event of connection `c`.
The host call `ngx_handle_write_event`, which re-arms the event when frames remain,
and the log calls leave the modelled state as it is. -/
def ipc_write_handler (w : Nat → write_result) (st : State) (c : ngx_connection_t) :
    Outcome State :=
  match c.data with
  | .ipc => .fault st
  | .proc i =>
    match st.process[i]? with
    | none => .fault st
    | some proc =>
      match ipc_write_loop w c.fd (st.heap.length + 1) st proc.wevd_first with
      | .ok (st1, cur) =>
        match st1.process[i]? with
        | none => .fault st1
        | some proc1 =>
          let proc2 : ipc_process_t :=
            { proc1 with wevd_first := cur,
                         wevd_last := if cur = none then none else proc1.wevd_last }
          .ok { st1 with process := st1.process.set i proc2 }
      | .assert_failed s => .assert_failed s
      | .fault s => .fault s
      | .out_of_fuel => .out_of_fuel

/-! ## Send -/

/-- The copy `ngx_memcpy(dst, src, n)` into a block. -/
def ngx_memcpy (dst src : List Nat) (n : Nat) : List Nat :=
  src.take n ++ dst.drop n

/-- The frame `ipc_alert` builds: zero-initialised, stamped, payload copied in. -/
def mk_alert (z : Sizes) (src dst : Int) (code : Nat) (data : List Nat) (data_size : Nat) :
    ipc_alert_t :=
  { src_slot := src, dst_slot := dst, code := code,
    data := ngx_memcpy (List.replicate z.capacity 0) data data_size }

/-- The tail insertion of `ipc_alert` (the node allocation and the updates of
`wevd_last` and `wevd_first` of slot `i`). -/
def ipc_alert_enqueue (st : State) (i : Nat) (proc : ipc_process_t) (alert : ipc_alert_t) :
    Outcome State :=
  let (wd, h1) := ngx_alloc st.heap { alert := alert, next := none }
  let linked : Option (List (Option ipc_writev_data_t)) :=
    match proc.wevd_last with
    | none => some h1
    | some l => heap_set_next h1 l (some wd)
  match linked with
  | none => .fault st
  | some h2 =>
    let proc1 : ipc_process_t :=
      { proc with wevd_last := some wd,
                  wevd_first := if proc.wevd_first = none then some wd else proc.wevd_first }
    .ok { st with heap := h2, process := st.process.set i proc1 }

/-- The function `ipc_alert` (the build without `FAKESHARD`). -/
def ipc_alert (z : Sizes) (w : Nat → write_result) (st : State) (slot : Int) (code : Nat)
    (data : List Nat) (data_size : Nat) : Outcome (Int × State) :=
  if ¬ data_size < z.capacity then .assert_failed st
  else if data.length < data_size then .fault st
  else
    let alert := mk_alert z st.memstore_slot slot code data data_size
    if ¬ alert.src_slot ≠ alert.dst_slot then .assert_failed st
    else if slot < 0 then .fault st
    else
      match st.process[slot.toNat]? with
      | none => .fault st
      | some proc =>
        match ipc_alert_enqueue st slot.toNat proc alert with
        | .ok st1 =>
          match proc.c with
          | none => .fault st1
          | some c =>
            match ipc_write_handler w st1 c with
            | .ok st2 => .ok (NGX_OK, st2)
            | .assert_failed s => .assert_failed s
            | .fault s => .fault s
            | .out_of_fuel => .out_of_fuel
        | .assert_failed s => .assert_failed s
        | .fault s => .fault s
        | .out_of_fuel => .out_of_fuel

/-! ## Reader -/

/-- The function `ipc_read_socket` on the answer `r` of `read(s, alert, sizeof(ipc_alert_t))`;
the comparison `(size_t) n < sizeof(*alert)` is taken on 64-bit unsigned values. -/
def ipc_read_socket (z : Sizes) (r : read_result) : Int :=
  if r.n = -1 then
    if r.errno = NGX_EAGAIN then NGX_AGAIN else NGX_ERROR
  else if r.n = 0 then NGX_ERROR
  else if r.n % 2 ^ 64 < (z.sizeof_alert : Int) then NGX_ERROR
  else r.n

/-- How one run of `ipc_read_handler` ends: it returned with the connection left
open, it closed the connection and returned, it failed `assert(n == sizeof(alert))`,
or it is still in its loop, about to issue a `read` the environment has not answered. -/
inductive read_status where
  | returned
  | closed
  | assert_failed
  | reading
deriving DecidableEq

/-- What one run of `ipc_read_handler` did: the calls of `ipc->handler` in order
(`src_slot`, `code`, `data`), the `dst_slot` of each frame it logged as not meant
for this process, the number of `read` calls, whether `ngx_del_conn` was called,
and how the run ended. -/
structure read_run where
  dispatched : List (Int × Nat × List Nat)
  warned : List Int
  reads : Nat
  del_conn : Bool
  status : read_status
deriving DecidableEq

/-- The `while(1)` loop of `ipc_read_handler`, over the answers to its reads. -/
def ipc_read_loop (z : Sizes) (ngx_process_slot : Int) (use_epoll : Bool) :
    List read_result → read_run
  | [] => { dispatched := [], warned := [], reads := 0, del_conn := false, status := .reading }
  | r :: rs =>
    let n := ipc_read_socket z r
    if n = NGX_ERROR then
      { dispatched := [], warned := [], reads := 1, del_conn := use_epoll, status := .closed }
    else if n = NGX_AGAIN then
      { dispatched := [], warned := [], reads := 1, del_conn := false, status := .returned }
    else if n ≠ (z.sizeof_alert : Int) then
      { dispatched := [], warned := [], reads := 1, del_conn := false, status := .assert_failed }
    else
      let rest := ipc_read_loop z ngx_process_slot use_epoll rs
      { rest with
        dispatched := (r.buf.src_slot, r.buf.code, r.buf.data) :: rest.dispatched,
        warned := (if ngx_process_slot ≠ r.buf.dst_slot then [r.buf.dst_slot] else [])
                    ++ rest.warned,
        reads := rest.reads + 1 }

/-- The function `ipc_read_handler`; `timedout` is `ev->timedout` and `use_epoll`
is `ngx_event_flags & NGX_USE_EPOLL_EVENT`. -/
def ipc_read_handler (z : Sizes) (ngx_process_slot : Int) (use_epoll timedout : Bool)
    (rs : List read_result) : read_run :=
  if timedout then
    { dispatched := [], warned := [], reads := 0, del_conn := false, status := .returned }
  else ipc_read_loop z ngx_process_slot use_epoll rs

/-! ## Pipe registry -/

/-- The function `ipc_try_close_fd`: the new value of `*fd` and the open descriptors. -/
def ipc_try_close_fd (open_fds : List Int) (fd : Int) : Int × List Int :=
  if fd ≠ NGX_INVALID_FILE then (NGX_INVALID_FILE, open_fds.filter (fun x => x ≠ fd))
  else (fd, open_fds)

/-- The host process table as `ipc_open` reads it: `ngx_processes[s].pid` and
`ngx_last_process`. -/
structure Host where
  pid : Nat → Int
  ngx_last_process : Nat

/-- The one-time reset at the head of `ipc_open`, guarded by the static flag. -/
def ipc_open_init (st : State) : State :=
  if st.invalid_sockets_initialized then st
  else
    { st with
      process := st.process.map (fun proc =>
        { proc with pipe0 := NGX_INVALID_FILE, pipe1 := NGX_INVALID_FILE,
                    c := none, active := false }),
      invalid_sockets_initialized := true }

/-- The inner `while` of `ipc_open`: advance `s` to the first free host slot. -/
def ipc_open_scan (host : Host) : Nat → Nat → Nat
  | 0, s => s
  | fuel + 1, s =>
    if s < host.ngx_last_process ∧ host.pid s ≠ -1 then ipc_open_scan host fuel (s + 1)
    else s

/-- The value of `s` after the inner `while` of `ipc_open`, entered with `s`. -/
def ipc_open_next_s (host : Host) (s : Nat) : Nat :=
  ipc_open_scan host (host.ngx_last_process - s) s

/-- The `for` loop of `ipc_open`: `n` iterations remain, the next one has index
`i` and enters with `s`.  The descriptor is taken at index `i`; `s` is advanced as
in the source and not used otherwise.  A failed `pipe()` leaves `socks` as it was. -/
def ipc_open_loop (host : Host) (sys : Nat → pipe_attempt) :
    Nat → Nat → Nat → State → Outcome (Int × State)
  | 0, _, _, st => .ok (NGX_OK, st)
  | n + 1, i, s, st =>
    let s1 := ipc_open_next_s host s
    match st.process[i]? with
    | none => .fault st
    | some proc =>
      if proc.active then ipc_open_loop host sys n (i + 1) (s1 + 1) st
      else if ¬ (proc.pipe0 = NGX_INVALID_FILE ∧ proc.pipe1 = NGX_INVALID_FILE) then
        .assert_failed st
      else
        match (sys i).pipe_ret with
        | none => .ok (NGX_ERROR, st)
        | some (r, wr) =>
          let piped : ipc_process_t := { proc with pipe0 := (r : Int), pipe1 := (wr : Int) }
          let fds := st.open_fds ++ [(r : Int), (wr : Int)]
          if (sys i).nonblocking0 = false ∨ (sys i).nonblocking1 = false then
            let (p0, fds0) := ipc_try_close_fd fds piped.pipe0
            let (p1, fds1) := ipc_try_close_fd fds0 piped.pipe1
            let undone : ipc_process_t := { piped with pipe0 := p0, pipe1 := p1 }
            .ok (NGX_ERROR, { st with process := st.process.set i undone, open_fds := fds1 })
          else
            let live : ipc_process_t := { piped with active := true }
            ipc_open_loop host sys n (i + 1) (s1 + 1)
              { st with process := st.process.set i live, open_fds := fds }

/-- The function `ipc_open`. -/
def ipc_open (host : Host) (sys : Nat → pipe_attempt) (st : State) (workers : Nat) :
    Outcome (Int × State) :=
  ipc_open_loop host sys workers 0 0 (ipc_open_init st)

/-- The values of `s` at `proc = &ipc->process[i]` in the successive iterations of
the `for` loop of `ipc_open`: the slots the host scan gives the next workers. -/
def ipc_open_s_values (host : Host) : Nat → Nat → List Nat
  | 0, _ => []
  | n + 1, s =>
    let s1 := ipc_open_next_s host s
    s1 :: ipc_open_s_values host n (s1 + 1)

/-- The context right after `ipc_create`: `ngx_calloc` zeroes every field of the
`maxp` descriptors; no node is allocated, no descriptor is open. -/
def ipc_create (maxp : Nat) (ngx_process_slot memstore_slot : Int) : State :=
  { ngx_process_slot := ngx_process_slot, memstore_slot := memstore_slot,
    invalid_sockets_initialized := false,
    process := List.replicate maxp
      { pipe0 := 0, pipe1 := 0, c := none, wevd_first := none, wevd_last := none,
        active := false },
    heap := [], nwrites := 0, written := [], open_fds := [] }

/-! ## Specification vocabulary -/

/-- The frames of the nodes reached from `p` by following `next`. -/
def queue_walk (h : List (Option ipc_writev_data_t)) : Nat → Option Nat → List ipc_alert_t
  | 0, _ => []
  | _ + 1, none => []
  | fuel + 1, some a =>
    match heap_get h a with
    | none => []
    | some nd => nd.alert :: queue_walk h fuel nd.next

/-- The frames queued for slot `i`, from `wevd_first`, in queue order. -/
def queue_frames (st : State) (i : Nat) : List ipc_alert_t :=
  match st.process[i]? with
  | none => []
  | some proc => queue_walk st.heap (st.heap.length + 1) proc.wevd_first

/-- The nodes `l` (address and frame) form the list that starts at `p` and ends in `NULL`. -/
def is_queue (h : List (Option ipc_writev_data_t)) :
    Option Nat → List (Nat × ipc_alert_t) → Prop
  | p, [] => p = none
  | p, (a, f) :: rest => p = some a ∧ ∃ nx, heap_get h a = some ⟨f, nx⟩ ∧ is_queue h nx rest

/-- The queue of a slot descriptor is the well-formed list `l`. -/
def queue_ok (h : List (Option ipc_writev_data_t)) (proc : ipc_process_t)
    (l : List (Nat × ipc_alert_t)) : Prop :=
  is_queue h proc.wevd_first l ∧ (l.map Prod.fst).Nodup ∧
    proc.wevd_last = l.getLast?.map Prod.fst

/-- The answer to a `write` is a whole frame or would-block. -/
def write_ok_or_again (z : Sizes) (r : write_result) : Prop :=
  r.n = (z.sizeof_alert : Int) ∨ (r.n = -1 ∧ r.errno = NGX_EAGAIN)

/-- Slot `i` is bound to connection `c` and its queue is the well-formed list `l`. -/
def slot_ok (st : State) (i : Nat) (c : ngx_connection_t) (l : List (Nat × ipc_alert_t)) :
    Prop :=
  ∃ proc, st.process[i]? = some proc ∧ proc.c = some c ∧ queue_ok st.heap proc l

/-- One step of the life of a slot queue: a send to the slot, or a run of the
writer on the write event of the slot connection. -/
inductive queue_op where
  | send (code : Nat) (data : List Nat) (data_size : Nat)
  | drain
deriving DecidableEq

/-- One step on slot `slot`: `ipc_alert`, or `ipc_write_handler` on `proc->c`. -/
def run_op (z : Sizes) (w : Nat → write_result) (slot : Int) (st : State) :
    queue_op → Outcome State
  | .send code data data_size =>
    match ipc_alert z w st slot code data data_size with
    | .ok (_, st1) => .ok st1
    | .assert_failed s => .assert_failed s
    | .fault s => .fault s
    | .out_of_fuel => .out_of_fuel
  | .drain =>
    match st.process[slot.toNat]? with
    | none => .fault st
    | some proc =>
      match proc.c with
      | none => .fault st
      | some c => ipc_write_handler w st c

/-- A sequence of steps on slot `slot`. -/
def run_ops (z : Sizes) (w : Nat → write_result) (slot : Int) :
    State → List queue_op → Outcome State
  | st, [] => .ok st
  | st, op :: ops =>
    match run_op z w slot st op with
    | .ok st1 => run_ops z w slot st1 ops
    | .assert_failed s => .assert_failed s
    | .fault s => .fault s
    | .out_of_fuel => .out_of_fuel

/-- The frames of the sends of a sequence of steps, in order. -/
def sent_frames (z : Sizes) (self slot : Int) : List queue_op → List ipc_alert_t
  | [] => []
  | .send code data data_size :: ops =>
    mk_alert z self slot code data data_size :: sent_frames z self slot ops
  | .drain :: ops => sent_frames z self slot ops

/-- The frames of the `write` calls logged so far. -/
def written_frames (st : State) : List ipc_alert_t :=
  st.written.map (fun x => x.alert)

/-- Example sizes: a payload block of 8 bytes in a frame of 32 bytes. -/
def demo_sizes : Sizes := { IPC_DATA_SIZE := 2, sizeof_voidp := 4, sizeof_alert := 32 }

/-- Example payload: the bytes of "ping". -/
def demo_ping : List Nat := [112, 105, 110, 103]

/-- Example process: slot 0 of a table of four, after `ipc_open` for two workers
and `ipc_start`; slot 0 holds the read connection, slot 1 a write connection,
slots 2 and 3 were never provisioned. -/
def demo_state : State :=
  { ngx_process_slot := 0, memstore_slot := 0, invalid_sockets_initialized := true,
    process :=
      [{ pipe0 := 10, pipe1 := 11,
         c := some { fd := 10, data := .ipc, read_handler := true, write_handler := false,
                     read_event := true },
         wevd_first := none, wevd_last := none, active := true },
       { pipe0 := 12, pipe1 := 13,
         c := some { fd := 13, data := .proc 1, read_handler := false, write_handler := true,
                     read_event := false },
         wevd_first := none, wevd_last := none, active := true },
       { pipe0 := -1, pipe1 := -1, c := none, wevd_first := none, wevd_last := none,
         active := false },
       { pipe0 := -1, pipe1 := -1, c := none, wevd_first := none, wevd_last := none,
         active := false }],
    heap := [], nwrites := 0, written := [], open_fds := [10, 11, 12, 13] }

/-- Example environment: the first `write` would block, every later one takes a whole frame. -/
def demo_writes : Nat → write_result :=
  fun k => if k = 0 then { n := -1, errno := 11 } else { n := 32, errno := 0 }

/-- Example environment: every `write` takes a whole frame. -/
def demo_writes_ok : Nat → write_result :=
  fun _ => { n := 32, errno := 0 }

/-- The answer to a `read` is a whole frame. -/
def read_full (z : Sizes) (r : read_result) : Bool :=
  decide (r.n = (z.sizeof_alert : Int))

/-- The answer to a `read` is would-block. -/
def read_again (r : read_result) : Bool :=
  decide (r.n = -1 ∧ r.errno = NGX_EAGAIN)

/-- The contract of `read(s, alert, sizeof(ipc_alert_t))`: it returns `-1` or a
count of at most the bytes asked for. -/
def read_wf (z : Sizes) (r : read_result) : Prop :=
  -1 ≤ r.n ∧ r.n ≤ (z.sizeof_alert : Int)

/-- The arguments of `ipc->handler` for a frame. -/
def dispatch_args (r : read_result) : Int × Nat × List Nat :=
  (r.buf.src_slot, r.buf.code, r.buf.data)

/-- The answers to the reads of a process whose inbound pipe holds `frames`: each
frame whole, in order, then would-block. -/
def pipe_reads (z : Sizes) (frames : List ipc_alert_t) : List read_result :=
  frames.map (fun f => { n := (z.sizeof_alert : Int), errno := 0, buf := f }) ++
    [{ n := -1, errno := NGX_EAGAIN, buf := { src_slot := 0, dst_slot := 0, code := 0, data := [] } }]

/-- The frames written to descriptor `fd` between state `st` and the later state `st1`. -/
def frames_written_since (st st1 : State) (fd : Int) : List ipc_alert_t :=
  ((st1.written.drop st.written.length).filter (fun x => decide (x.fd = fd))).map
    (fun x => x.alert)

/-- Example reads of slot 1: a whole frame meant for slot 5, a whole frame meant for
slot 1, a short read of 5 bytes, and a further whole frame. -/
def demo_reads : List read_result :=
  [{ n := 32, errno := 0, buf := { src_slot := 0, dst_slot := 5, code := 7, data := demo_ping } },
   { n := 32, errno := 0, buf := { src_slot := 2, dst_slot := 1, code := 8, data := [1] } },
   { n := 5, errno := 0, buf := { src_slot := 3, dst_slot := 1, code := 9, data := [2] } },
   { n := 32, errno := 0, buf := { src_slot := 0, dst_slot := 1, code := 10, data := [3] } }]

/-- A descriptor is consistent: active with both endpoints valid, or inactive with
both endpoints invalid. -/
def proc_ok (p : ipc_process_t) : Prop :=
  (p.active = true → p.pipe0 ≠ NGX_INVALID_FILE ∧ p.pipe1 ≠ NGX_INVALID_FILE) ∧
  (p.active = false → p.pipe0 = NGX_INVALID_FILE ∧ p.pipe1 = NGX_INVALID_FILE)

/-- Every descriptor of the table is consistent. -/
def table_ok (t : List ipc_process_t) : Prop :=
  ∀ p ∈ t, proc_ok p

/-- Example host: no process slot is taken yet. -/
def demo_host : Host := { pid := fun _ => -1, ngx_last_process := 0 }

/-- Example host: process slot 0 is taken by pid 100, and `ngx_last_process` is 1. -/
def demo_host_busy : Host := { pid := fun s => if s = 0 then 100 else -1, ngx_last_process := 1 }

/-- Example environment: `pipe()` at index `i` yields descriptors `10 + 2i` and
`11 + 2i`, and `ngx_nonblocking` succeeds. -/
def demo_pipes : Nat → pipe_attempt :=
  fun i => { pipe_ret := some (10 + 2 * i, 11 + 2 * i), nonblocking0 := true,
             nonblocking1 := true }

/-- Example environment: as `demo_pipes`, but `ngx_nonblocking` fails on `socks[1]`
at index 1. -/
def demo_pipes_fail : Nat → pipe_attempt :=
  fun i => { pipe_ret := some (10 + 2 * i, 11 + 2 * i), nonblocking0 := true,
             nonblocking1 := decide (i ≠ 1) }

/-- Example registry: a table of four after `ipc_open` for two workers. -/
def demo_opened : State :=
  { ngx_process_slot := 0, memstore_slot := 0, invalid_sockets_initialized := true,
    process :=
      [{ pipe0 := 10, pipe1 := 11, c := none, wevd_first := none, wevd_last := none,
         active := true },
       { pipe0 := 12, pipe1 := 13, c := none, wevd_first := none, wevd_last := none,
         active := true },
       { pipe0 := -1, pipe1 := -1, c := none, wevd_first := none, wevd_last := none,
         active := false },
       { pipe0 := -1, pipe1 := -1, c := none, wevd_first := none, wevd_last := none,
         active := false }],
    heap := [], nwrites := 0, written := [], open_fds := [10, 11, 12, 13] }

instance proc_ok_decidable (p : ipc_process_t) : Decidable (proc_ok p) :=
  inferInstanceAs (Decidable
    ((p.active = true → p.pipe0 ≠ NGX_INVALID_FILE ∧ p.pipe1 ≠ NGX_INVALID_FILE) ∧
     (p.active = false → p.pipe0 = NGX_INVALID_FILE ∧ p.pipe1 = NGX_INVALID_FILE)))

instance table_ok_decidable (t : List ipc_process_t) : Decidable (table_ok t) :=
  inferInstanceAs (Decidable (∀ p ∈ t, proc_ok p))

/-! ## Theorems -/

theorem heap_get_lt {h : List (Option ipc_writev_data_t)} {a : Nat} {nd : ipc_writev_data_t}
    (e : heap_get h a = some nd) : a < h.length := by
  unfold heap_get at e
  by_contra hlt
  rw [List.getElem?_eq_none (by omega)] at e
  simp at e

theorem heap_get_append {h : List (Option ipc_writev_data_t)} {a : Nat} {nd : ipc_writev_data_t}
    (x : Option ipc_writev_data_t) (e : heap_get h a = some nd) :
    heap_get (h ++ [x]) a = some nd := by
  have hlt := heap_get_lt e
  unfold heap_get at *
  rw [List.getElem?_append_left hlt]
  exact e

theorem heap_get_set_ne {h : List (Option ipc_writev_data_t)} {a b : Nat}
    (x : Option ipc_writev_data_t) (hab : b ≠ a) :
    heap_get (h.set b x) a = heap_get h a := by
  unfold heap_get
  rw [List.getElem?_set_ne hab]

theorem heap_get_set_self {h : List (Option ipc_writev_data_t)} {a : Nat}
    (x : Option ipc_writev_data_t) (hlt : a < h.length) :
    heap_get (h.set a x) a = x := by
  unfold heap_get
  rw [List.getElem?_set_self hlt]
  rfl

theorem is_queue_lt {h : List (Option ipc_writev_data_t)} :
    ∀ (l : List (Nat × ipc_alert_t)) (p : Option Nat), is_queue h p l →
      ∀ a ∈ l.map Prod.fst, a < h.length := by
  intro l
  induction l with
  | nil => intro p _ a ha; simp at ha
  | cons x rest ih =>
    obtain ⟨b, f⟩ := x
    intro p hq a ha
    obtain ⟨_, nx, hget, hrest⟩ := hq
    simp only [List.map_cons, List.mem_cons] at ha
    rcases ha with ha | ha
    · subst ha; exact heap_get_lt hget
    · exact ih nx hrest a ha

theorem is_queue_set_notin {h : List (Option ipc_writev_data_t)} (b : Nat)
    (x : Option ipc_writev_data_t) :
    ∀ (l : List (Nat × ipc_alert_t)) (p : Option Nat), is_queue h p l →
      b ∉ l.map Prod.fst → is_queue (h.set b x) p l := by
  intro l
  induction l with
  | nil => intro p hq _; exact hq
  | cons y rest ih =>
    obtain ⟨a, f⟩ := y
    intro p hq hb
    obtain ⟨hp, nx, hget, hrest⟩ := hq
    simp only [List.map_cons, List.mem_cons, not_or] at hb
    refine ⟨hp, nx, ?_, ih nx hrest hb.2⟩
    rw [heap_get_set_ne x hb.1]
    exact hget

theorem is_queue_length_le {h : List (Option ipc_writev_data_t)}
    (l : List (Nat × ipc_alert_t)) (p : Option Nat) (hq : is_queue h p l)
    (hnd : (l.map Prod.fst).Nodup) : l.length ≤ h.length := by
  have hsub : l.map Prod.fst ⊆ List.range h.length := by
    intro a ha
    exact List.mem_range.mpr (is_queue_lt l p hq a ha)
  have := (List.subperm_of_subset hnd hsub).length_le
  simpa using this

theorem queue_walk_eq {h : List (Option ipc_writev_data_t)} :
    ∀ (l : List (Nat × ipc_alert_t)) (p : Option Nat) (fuel : Nat), is_queue h p l →
      l.length < fuel → queue_walk h fuel p = l.map Prod.snd := by
  intro l
  induction l with
  | nil =>
    intro p fuel hq hf
    have hp : p = none := hq
    subst hp
    cases fuel with
    | zero => omega
    | succ k => rfl
  | cons y rest ih =>
    obtain ⟨a, f⟩ := y
    intro p fuel hq hf
    obtain ⟨hp, nx, hget, hrest⟩ := hq
    subst hp
    cases fuel with
    | zero => omega
    | succ k =>
      simp only [queue_walk, hget, List.map_cons]
      rw [ih nx k hrest (by simpa using hf)]

theorem write_loop_spec (z : Sizes) (w : Nat → write_result) (fd : Int)
    (hw : ∀ k, write_ok_or_again z (w k)) :
    ∀ (l : List (Nat × ipc_alert_t)) (st : State) (p : Option Nat) (fuel : Nat),
      is_queue st.heap p l → (l.map Prod.fst).Nodup → l.length < fuel →
      ∃ st1 cur k, ipc_write_loop w fd fuel st p = .ok (st1, cur) ∧ k ≤ l.length ∧
        is_queue st1.heap cur (l.drop k) ∧
        st1.written = st.written ++ (l.take k).map (fun x => ⟨fd, x.2, (z.sizeof_alert : Int)⟩) ∧
        st1.process = st.process ∧ st1.heap.length = st.heap.length ∧
        st1.memstore_slot = st.memstore_slot ∧ st.nwrites ≤ st1.nwrites ∧
        ((w st.nwrites).n = -1 → k = 0) := by
  intro l
  induction l with
  | nil =>
    intro st p fuel hq _ hf
    have hp : p = none := hq
    subst hp
    cases fuel with
    | zero => omega
    | succ n =>
      exact ⟨st, none, 0, rfl, le_refl _, rfl, by simp, rfl, rfl, rfl, le_refl _, fun _ => rfl⟩
  | cons y rest ih =>
    obtain ⟨a, f⟩ := y
    intro st p fuel hq hnd hf
    obtain ⟨hp, nx, hget, hrest⟩ := hq
    subst hp
    simp only [List.map_cons, List.nodup_cons] at hnd
    cases fuel with
    | zero => omega
    | succ n =>
      rcases hw st.nwrites with hs | ⟨hn, he⟩
      · have hne : (w st.nwrites).n ≠ -1 := by rw [hs]; omega
        have hq1 : is_queue (ngx_free st.heap a) nx rest :=
          is_queue_set_notin a none rest nx hrest hnd.1
        obtain ⟨st1, cur, k, hrun, hk, hqk, hwr, hpr, hlen, hms, hnw, _⟩ :=
          ih { st with nwrites := st.nwrites + 1,
                       written := st.written ++ [⟨fd, f, (w st.nwrites).n⟩],
                       heap := ngx_free st.heap a } nx n hq1 hnd.2
            (by simpa using hf)
        refine ⟨st1, cur, k + 1, ?_, by simpa using hk, by simpa using hqk, ?_, hpr, ?_, hms, ?_,
          fun h => absurd h hne⟩
        · simp only [ipc_write_loop, hget, ipc_write_alert_fd, hne, if_false, if_true]
          exact hrun
        · rw [hwr, hs]; simp
        · rw [hlen]; simp [ngx_free]
        · simp only at hnw; omega
      · refine ⟨{ st with nwrites := st.nwrites + 1 }, some a, 0, ?_, by simp,
          ⟨rfl, nx, hget, hrest⟩, by simp, rfl, rfl, rfl, by simp, fun _ => rfl⟩
        simp [ipc_write_loop, hget, ipc_write_alert_fd, hn, he, NGX_AGAIN, NGX_OK]

theorem getLast?_drop_of_lt {α : Type} (l : List α) (k : Nat) (hk : k < l.length) :
    (l.drop k).getLast? = l.getLast? := by
  induction l generalizing k with
  | nil => simp at hk
  | cons x xs ih =>
    cases k with
    | zero => rfl
    | succ n =>
      have hn : n < xs.length := by simpa using hk
      rw [List.drop_succ_cons, ih n hn]
      cases xs with
      | nil => simp at hn
      | cons y ys => simp [List.getLast?_cons_cons]

theorem write_handler_spec (z : Sizes) (w : Nat → write_result)
    (hw : ∀ k, write_ok_or_again z (w k)) (st : State) (i : Nat) (c : ngx_connection_t)
    (l : List (Nat × ipc_alert_t)) (hc : c.data = .proc i) (hs : slot_ok st i c l) :
    ∃ st1 k, ipc_write_handler w st c = .ok st1 ∧ k ≤ l.length ∧ slot_ok st1 i c (l.drop k) ∧
      st1.written = st.written ++ (l.take k).map (fun x => ⟨c.fd, x.2, (z.sizeof_alert : Int)⟩) ∧
      st1.memstore_slot = st.memstore_slot ∧ ((w st.nwrites).n = -1 → k = 0) := by
  obtain ⟨proc, hp, hpc, hq, hnd, hlast⟩ := hs
  have hlen := is_queue_length_le l proc.wevd_first hq hnd
  obtain ⟨st1, cur, k, hrun, hk, hqk, hwr, hpr, _, hms, _, hwb⟩ :=
    write_loop_spec z w c.fd hw l st proc.wevd_first (st.heap.length + 1) hq hnd (by omega)
  have hp1 : st1.process[i]? = some proc := by rw [hpr]; exact hp
  have hi : i < st1.process.length := by
    by_contra hlt
    rw [List.getElem?_eq_none (by omega)] at hp1
    simp at hp1
  let proc2 : ipc_process_t :=
    { proc with wevd_first := cur, wevd_last := if cur = none then none else proc.wevd_last }
  refine ⟨{ st1 with process := st1.process.set i proc2 }, k, ?_, hk, ?_, hwr, hms, hwb⟩
  · simp only [ipc_write_handler, hc, hp, hrun, hp1]
  · refine ⟨_, List.getElem?_set_self hi, hpc, hqk, ?_, ?_⟩
    · rw [List.map_drop]
      exact hnd.sublist (List.drop_sublist k _)
    · rcases Nat.lt_or_ge k l.length with hlt | hge
      · have hne : cur ≠ none := by
          intro h0
          subst h0
          have hd : l.drop k ≠ [] := by simp; omega
          cases hdk : l.drop k with
          | nil => exact hd hdk
          | cons y ys =>
            rw [hdk] at hqk
            obtain ⟨a, f⟩ := y
            exact absurd hqk.1 (by simp)
        simp only [hne, if_false]
        rw [getLast?_drop_of_lt l k hlt]
        exact hlast
      · have hd : l.drop k = [] := by simp; omega
        rw [hd] at hqk ⊢
        have h0 : cur = none := hqk
        simp [h0]

theorem is_queue_append_heap {h : List (Option ipc_writev_data_t)}
    (x : Option ipc_writev_data_t) :
    ∀ (l : List (Nat × ipc_alert_t)) (p : Option Nat), is_queue h p l →
      is_queue (h ++ [x]) p l := by
  intro l
  induction l with
  | nil => intro p hq; exact hq
  | cons y rest ih =>
    obtain ⟨a, f⟩ := y
    intro p hq
    obtain ⟨hp, nx, hget, hrest⟩ := hq
    exact ⟨hp, nx, heap_get_append x hget, ih nx hrest⟩

theorem is_queue_snoc {h : List (Option ipc_writev_data_t)} (b : Nat) (g f : ipc_alert_t) :
    ∀ (l : List (Nat × ipc_alert_t)) (p : Option Nat), is_queue h p (l ++ [(b, g)]) →
      ((l ++ [(b, g)]).map Prod.fst).Nodup →
      is_queue ((h ++ [some (ipc_writev_data_t.mk f none)]).set b
          (some (ipc_writev_data_t.mk g (some h.length)))) p
        (l ++ [(b, g)] ++ [(h.length, f)]) := by
  intro l
  induction l with
  | nil =>
    intro p hq _
    obtain ⟨hp, nx, hget, hnx⟩ := hq
    have hb := heap_get_lt hget
    refine ⟨hp, some h.length, ?_, rfl, none, ?_, rfl⟩
    · rw [heap_get_set_self _ (by simp; omega)]
    · rw [heap_get_set_ne _ (by omega)]
      simp [heap_get]
  | cons y rest ih =>
    obtain ⟨a, f0⟩ := y
    intro p hq hnd
    obtain ⟨hp, nx, hget, hrest⟩ := hq
    simp only [List.cons_append, List.map_cons, List.nodup_cons] at hnd
    have hab : b ≠ a := by
      intro e
      subst e
      exact hnd.1 (by simp)
    refine ⟨hp, nx, ?_, ih nx hrest hnd.2⟩
    rw [heap_get_set_ne _ hab]
    exact heap_get_append _ hget

theorem is_queue_snoc_get {h : List (Option ipc_writev_data_t)} (b : Nat) (g : ipc_alert_t) :
    ∀ (l : List (Nat × ipc_alert_t)) (p : Option Nat), is_queue h p (l ++ [(b, g)]) →
      heap_get h b = some ⟨g, none⟩ ∧ p ≠ none := by
  intro l
  induction l with
  | nil =>
    intro p hq
    obtain ⟨hp, nx, hget, hnx⟩ := hq
    have h0 : nx = none := hnx
    subst h0
    exact ⟨hget, by simp [hp]⟩
  | cons y rest ih =>
    obtain ⟨a, f0⟩ := y
    intro p hq
    obtain ⟨hp, nx, _, hrest⟩ := hq
    exact ⟨(ih nx hrest).1, by simp [hp]⟩

theorem enqueue_spec (st : State) (i : Nat) (proc : ipc_process_t) (alert : ipc_alert_t)
    (l : List (Nat × ipc_alert_t)) (hq : queue_ok st.heap proc l) :
    ∃ st1 proc1, ipc_alert_enqueue st i proc alert = .ok st1 ∧
      st1.process = st.process.set i proc1 ∧ proc1.c = proc.c ∧
      queue_ok st1.heap proc1 (l ++ [(st.heap.length, alert)]) ∧
      st1.written = st.written ∧ st1.memstore_slot = st.memstore_slot ∧
      st1.nwrites = st.nwrites := by
  obtain ⟨hq, hnd, hlast⟩ := hq
  have hlt := is_queue_lt l _ hq
  have hnd1 : ((l ++ [(st.heap.length, alert)]).map Prod.fst).Nodup := by
    rw [List.map_append, List.nodup_append]
    refine ⟨hnd, by simp, ?_⟩
    intro a ha hb
    simp at hb
    have := hlt a ha
    omega
  rcases List.eq_nil_or_concat l with hl | ⟨l0, y, hl⟩
  · subst hl
    have hf : proc.wevd_first = none := hq
    have hla : proc.wevd_last = none := by simpa using hlast
    let proc1 : ipc_process_t :=
      { proc with wevd_last := some st.heap.length, wevd_first := some st.heap.length }
    refine ⟨{ st with heap := st.heap ++ [some (ipc_writev_data_t.mk alert none)],
                      process := st.process.set i proc1 }, proc1, ?_, rfl, rfl,
      ⟨?_, hnd1, ?_⟩, rfl, rfl, rfl⟩
    · simp only [ipc_alert_enqueue, ngx_alloc, hla, hf]
      rfl
    · refine ⟨by simp, none, ?_, rfl⟩
      simp [heap_get]
    · simp
  · obtain ⟨b, g⟩ := y
    rw [List.concat_eq_append] at hl
    subst hl
    obtain ⟨hgb, hfn⟩ := is_queue_snoc_get b g l0 _ hq
    have hla : proc.wevd_last = some b := by simpa using hlast
    have hgb1 := heap_get_append (some (⟨alert, none⟩ : ipc_writev_data_t)) hgb
    let proc1 : ipc_process_t :=
      { proc with wevd_last := some st.heap.length, wevd_first := proc.wevd_first }
    refine ⟨{ st with heap := (st.heap ++ [some (ipc_writev_data_t.mk alert none)]).set b
                        (some (ipc_writev_data_t.mk g (some st.heap.length))),
                      process := st.process.set i proc1 }, proc1, ?_, rfl, rfl,
      ⟨?_, hnd1, ?_⟩, rfl, rfl, rfl⟩
    · simp only [ipc_alert_enqueue, ngx_alloc, hla, heap_set_next, hgb1, hfn, if_false]
    · exact is_queue_snoc b g alert l0 _ hq hnd
    · simp

theorem alert_spec (z : Sizes) (w : Nat → write_result)
    (hw : ∀ k, write_ok_or_again z (w k)) (st : State) (slot : Int) (code : Nat)
    (data : List Nat) (n : Nat) (c : ngx_connection_t) (l : List (Nat × ipc_alert_t))
    (h0 : 0 ≤ slot) (hc : c.data = .proc slot.toNat) (hs : slot_ok st slot.toNat c l)
    (hn : n < z.capacity) (hd : n ≤ data.length) (hself : st.memstore_slot ≠ slot) :
    ∃ st1 k, ipc_alert z w st slot code data n = .ok (NGX_OK, st1) ∧
      slot_ok st1 slot.toNat c
        ((l ++ [(st.heap.length, mk_alert z st.memstore_slot slot code data n)]).drop k) ∧
      st1.written = st.written ++
        ((l ++ [(st.heap.length, mk_alert z st.memstore_slot slot code data n)]).take k).map
          (fun x => ⟨c.fd, x.2, (z.sizeof_alert : Int)⟩) ∧
      st1.memstore_slot = st.memstore_slot := by
  obtain ⟨proc, hp, hpc, hq⟩ := hs
  obtain ⟨st1, proc1, hen, hpr, hc1, hq1, hwr1, hms1, _⟩ :=
    enqueue_spec st slot.toNat proc (mk_alert z st.memstore_slot slot code data n) l hq
  have hi : slot.toNat < st.process.length := by
    by_contra hlt
    rw [List.getElem?_eq_none (by omega)] at hp
    simp at hp
  have hs1 : slot_ok st1 slot.toNat c
      (l ++ [(st.heap.length, mk_alert z st.memstore_slot slot code data n)]) :=
    ⟨proc1, by rw [hpr]; exact List.getElem?_set_self hi, by rw [hc1]; exact hpc, hq1⟩
  obtain ⟨st2, k, hrun, _, hs2, hwr2, hms2, _⟩ := write_handler_spec z w hw st1 _ c _ hc hs1
  refine ⟨st2, k, ?_, hs2, by rw [hwr2, hwr1], by rw [hms2, hms1]⟩
  have hsd : ¬ (mk_alert z st.memstore_slot slot code data n).src_slot
      = (mk_alert z st.memstore_slot slot code data n).dst_slot := hself
  simp only [ipc_alert, hn, not_true, if_false, not_lt.mpr hd, hsd, not_not, not_lt.mpr h0, hp,
    hen, hpc, hrun]

theorem queue_frames_of_slot_ok {st : State} {i : Nat} {c : ngx_connection_t}
    {l : List (Nat × ipc_alert_t)} (hs : slot_ok st i c l) :
    queue_frames st i = l.map Prod.snd := by
  obtain ⟨proc, hp, _, hq, hnd, _⟩ := hs
  have hlen := is_queue_length_le l _ hq hnd
  simp only [queue_frames, hp]
  exact queue_walk_eq l _ _ hq (by omega)

theorem run_ops_spec (z : Sizes) (w : Nat → write_result)
    (hw : ∀ k, write_ok_or_again z (w k)) (slot : Int) (c : ngx_connection_t)
    (h0 : 0 ≤ slot) (hc : c.data = .proc slot.toNat) :
    ∀ (ops : List queue_op) (st : State) (l : List (Nat × ipc_alert_t)),
      slot_ok st slot.toNat c l → st.memstore_slot ≠ slot →
      (∀ code data n, queue_op.send code data n ∈ ops → n < z.capacity ∧ n ≤ data.length) →
      ∃ st1 l1, run_ops z w slot st ops = .ok st1 ∧ slot_ok st1 slot.toNat c l1 ∧
        written_frames st1 ++ l1.map Prod.snd =
          written_frames st ++ l.map Prod.snd ++ sent_frames z st.memstore_slot slot ops ∧
        ∃ extra, st1.written = st.written ++ extra ∧
          ∀ x ∈ extra, x.fd = c.fd ∧ x.n = (z.sizeof_alert : Int) := by
  intro ops
  induction ops with
  | nil =>
    intro st l hs _ _
    exact ⟨st, l, rfl, hs, by simp [sent_frames], [], by simp, by simp⟩
  | cons op ops ih =>
    intro st l hs hself hops
    have hops1 : ∀ code data n, queue_op.send code data n ∈ ops →
        n < z.capacity ∧ n ≤ data.length :=
      fun code data n hm => hops code data n (List.mem_cons_of_mem _ hm)
    cases op with
    | send code data n =>
      obtain ⟨hn, hd⟩ := hops code data n (List.mem_cons_self _ _)
      obtain ⟨st1, k, hrun, hs1, hwr, hms⟩ :=
        alert_spec z w hw st slot code data n c l h0 hc hs hn hd hself
      obtain ⟨st2, l2, hrun2, hs2, heq, extra, hex, hall⟩ :=
        ih st1 _ hs1 (by rw [hms]; exact hself) hops1
      have hex1 : ∃ e1, st1.written = st.written ++ e1 ∧
          ∀ x ∈ e1, x.fd = c.fd ∧ x.n = (z.sizeof_alert : Int) :=
        ⟨_, hwr, fun x hx => by
          obtain ⟨y, _, rfl⟩ := List.mem_map.mp hx
          exact ⟨rfl, rfl⟩⟩
      obtain ⟨e1, he1, hall1⟩ := hex1
      refine ⟨st2, l2, ?_, hs2, ?_, e1 ++ extra, by rw [hex, he1, List.append_assoc], ?_⟩
      · simp only [run_ops, run_op, hrun]
        exact hrun2
      rotate_left
      · intro x hx
        rcases List.mem_append.mp hx with h | h
        · exact hall1 x h
        · exact hall x h
      · rw [heq, hms]
        simp only [written_frames, hwr, sent_frames, List.map_append, List.map_map,
          List.append_assoc]
        have hsplit := List.take_append_drop k
          (l ++ [(st.heap.length, mk_alert z st.memstore_slot slot code data n)])
        have hmap := congrArg (List.map Prod.snd) hsplit
        simp only [List.map_append, List.map_cons, List.map_nil] at hmap
        have hfun : ((fun x : write_call => x.alert) ∘
            fun x : Nat × ipc_alert_t => (⟨c.fd, x.2, (z.sizeof_alert : Int)⟩ : write_call))
            = Prod.snd := rfl
        rw [hfun, ← List.append_assoc (List.map Prod.snd _) (List.map Prod.snd _), hmap]
        simp
    | drain =>
      obtain ⟨st1, k, hrun, _, hs1, hwr, hms, _⟩ := write_handler_spec z w hw st _ c l hc hs
      obtain ⟨st2, l2, hrun2, hs2, heq, extra, hex, hall⟩ :=
        ih st1 _ hs1 (by rw [hms]; exact hself) hops1
      obtain ⟨proc, hp, hpc, _⟩ := hs
      have hex1 : ∃ e1, st1.written = st.written ++ e1 ∧
          ∀ x ∈ e1, x.fd = c.fd ∧ x.n = (z.sizeof_alert : Int) :=
        ⟨_, hwr, fun x hx => by
          obtain ⟨y, _, rfl⟩ := List.mem_map.mp hx
          exact ⟨rfl, rfl⟩⟩
      obtain ⟨e1, he1, hall1⟩ := hex1
      refine ⟨st2, l2, ?_, hs2, ?_, e1 ++ extra, by rw [hex, he1, List.append_assoc], ?_⟩
      · simp only [run_ops, run_op, hp, hpc, hrun]
        exact hrun2
      rotate_left
      · intro x hx
        rcases List.mem_append.mp hx with h | h
        · exact hall1 x h
        · exact hall x h
      · rw [heq, hms]
        simp only [written_frames, hwr, sent_frames, List.map_append, List.map_map,
          List.append_assoc]
        have hmap := congrArg (List.map Prod.snd) (List.take_append_drop k l)
        simp only [List.map_append] at hmap
        have hfun : ((fun x : write_call => x.alert) ∘
            fun x : Nat × ipc_alert_t => (⟨c.fd, x.2, (z.sizeof_alert : Int)⟩ : write_call))
            = Prod.snd := rfl
        rw [hfun, ← List.append_assoc (List.map Prod.snd _) (List.map Prod.snd _), hmap]

/-- C1: for every sequence of sends to one slot interleaved with runs of the writer on
that slot, and for every answer (a whole frame or would-block) to each `write`, the
sequence runs to completion and the frames written so far followed by the frames still
queued from `wevd_first` are exactly the frames sent, in send order: none is lost,
duplicated or reordered.  Every write of the sequence went to the descriptor of the slot
connection and took a whole frame.  When the next `write` would block, a run of the writer
leaves both the written frames and the queue, hence the frame at its head, as they are. -/
theorem ipc_queue_fifo (z : Sizes) (w : Nat → write_result) (st0 : State) (slot : Int)
    (proc : ipc_process_t) (c : ngx_connection_t) (ops : List queue_op)
    (hw : ∀ k, write_ok_or_again z (w k))
    (h0 : 0 ≤ slot) (hself : st0.memstore_slot ≠ slot)
    (hp : st0.process[slot.toNat]? = some proc)
    (hpc : proc.c = some c) (hc : c.data = .proc slot.toNat)
    (hfirst : proc.wevd_first = none) (hlast : proc.wevd_last = none)
    (hops : ∀ code data n, queue_op.send code data n ∈ ops →
      n < z.capacity ∧ n ≤ data.length) :
    ∃ st, run_ops z w slot st0 ops = .ok st ∧
      written_frames st ++ queue_frames st slot.toNat =
        written_frames st0 ++ sent_frames z st0.memstore_slot slot ops ∧
      (∃ extra, st.written = st0.written ++ extra ∧
        ∀ x ∈ extra, x.fd = c.fd ∧ x.n = (z.sizeof_alert : Int)) ∧
      ((w st.nwrites).n = -1 →
        ∃ st1, ipc_write_handler w st c = .ok st1 ∧ written_frames st1 = written_frames st ∧
          queue_frames st1 slot.toNat = queue_frames st slot.toNat) := by
  have hs0 : slot_ok st0 slot.toNat c [] :=
    ⟨proc, hp, hpc, hfirst, by simp, by simpa using hlast⟩
  obtain ⟨st, l, hrun, hs, heq, hex⟩ :=
    run_ops_spec z w hw slot c h0 hc ops st0 [] hs0 hself hops
  refine ⟨st, hrun, ?_, hex, ?_⟩
  · rw [queue_frames_of_slot_ok hs, heq]
    simp
  · intro hwb
    obtain ⟨st1, k, hrun1, _, hs1, hwr, _, hk⟩ := write_handler_spec z w hw st _ c l hc hs
    have hk0 := hk hwb
    subst hk0
    refine ⟨st1, hrun1, ?_, ?_⟩
    · simp [written_frames, hwr]
    · rw [queue_frames_of_slot_ok hs1, queue_frames_of_slot_ok hs]
      simp

theorem demo_writes_good : ∀ k, write_ok_or_again demo_sizes (demo_writes k) := by
  intro k
  unfold write_ok_or_again demo_writes
  by_cases hk : k = 0
  · right; simp [hk, NGX_EAGAIN]
  · left; simp [hk, demo_sizes]

theorem demo_writes_ok_good : ∀ k, write_ok_or_again demo_sizes (demo_writes_ok k) := by
  intro k
  left
  rfl

theorem ipc_queue_fifo_witness :
    ∃ st, run_ops demo_sizes demo_writes 1 demo_state
        [.send 7 demo_ping 4, .send 8 [1] 1, .drain] = .ok st ∧
      written_frames st ++ queue_frames st (1 : Int).toNat =
        written_frames demo_state ++ sent_frames demo_sizes demo_state.memstore_slot 1
          [.send 7 demo_ping 4, .send 8 [1] 1, .drain] ∧
      (∃ extra, st.written = demo_state.written ++ extra ∧
        ∀ x ∈ extra, x.fd = 13 ∧ x.n = (demo_sizes.sizeof_alert : Int)) ∧
      ((demo_writes st.nwrites).n = -1 →
        ∃ st1, ipc_write_handler demo_writes st
            { fd := 13, data := .proc 1, read_handler := false, write_handler := true,
              read_event := false } = .ok st1 ∧
          written_frames st1 = written_frames st ∧
          queue_frames st1 (1 : Int).toNat = queue_frames st (1 : Int).toNat) :=
  ipc_queue_fifo demo_sizes demo_writes demo_state 1 _ _ _ demo_writes_good (by decide)
    (by decide) rfl rfl rfl rfl rfl (by
      intro code data n hm
      simp only [List.mem_cons, List.mem_singleton, queue_op.send.injEq, List.mem_nil_iff,
        or_false] at hm
      rcases hm with ⟨_, rfl, rfl⟩ | ⟨_, rfl, rfl⟩ | hm
      · decide
      · decide
      · cases hm)

/-- C3: a send whose `data_size` is at least `IPC_DATA_SIZE * sizeof(void *)`, or
whose slot is the caller's own, stops at an assertion in the state it was called
in: no node was added to any queue (heap and descriptors are unchanged) and no
`write` was attempted (`nwrites` and the log are unchanged). -/
theorem ipc_alert_rejects_before_io (z : Sizes) (w : Nat → write_result) (st : State)
    (slot : Int) (code : Nat) (data : List Nat) (n : Nat)
    (h : z.capacity ≤ n ∨ (slot = st.memstore_slot ∧ n ≤ data.length)) :
    ipc_alert z w st slot code data n = .assert_failed st := by
  rcases h with h | ⟨hs, hd⟩
  · simp [ipc_alert, not_lt.mpr h]
  · by_cases hn : n < z.capacity
    · simp [ipc_alert, hn, not_lt.mpr hd, mk_alert, hs]
    · simp [ipc_alert, hn]

theorem ipc_alert_rejects_before_io_witness :
    ipc_alert demo_sizes demo_writes_ok demo_state 0 7 demo_ping 4 = .assert_failed demo_state :=
  ipc_alert_rejects_before_io demo_sizes demo_writes_ok demo_state 0 7 demo_ping 4
    (Or.inr ⟨rfl, by decide⟩)

/-- Whatever non-negative byte count `write` returns, `ipc_write_alert_fd` returns `NGX_OK`. -/
theorem ipc_write_alert_fd_any_count (w : Nat → write_result) (st : State) (fd : Int)
    (alert : ipc_alert_t) (h : 0 ≤ (w st.nwrites).n) :
    ∃ st1, ipc_write_alert_fd w st fd alert = .ok (NGX_OK, st1) := by
  have hne : (w st.nwrites).n ≠ -1 := by omega
  refine ⟨{ st with nwrites := st.nwrites + 1,
                    written := st.written ++ [⟨fd, alert, (w st.nwrites).n⟩] }, ?_⟩
  simp [ipc_write_alert_fd, hne]

theorem read_socket_full (z : Sizes) (r : read_result) (hz : 0 < z.sizeof_alert)
    (hz2 : z.sizeof_alert < 2 ^ 64) (h : r.n = (z.sizeof_alert : Int)) :
    ipc_read_socket z r = (z.sizeof_alert : Int) := by
  have h1 : ¬ (z.sizeof_alert : Int) = -1 := by omega
  have h2 : ¬ (z.sizeof_alert : Int) = 0 := by omega
  have h3 : (z.sizeof_alert : Int) % 2 ^ 64 = (z.sizeof_alert : Int) :=
    Int.emod_eq_of_lt (by omega) (by exact_mod_cast hz2)
  norm_num at h3
  simp [ipc_read_socket, h, h1, h2, h3]

theorem read_socket_again (z : Sizes) (r : read_result) (h : r.n = -1)
    (he : r.errno = NGX_EAGAIN) : ipc_read_socket z r = NGX_AGAIN := by
  simp [ipc_read_socket, h, he]

theorem read_socket_error (z : Sizes) (r : read_result) (hz2 : z.sizeof_alert < 2 ^ 64)
    (hwf : read_wf z r) (hf : r.n ≠ (z.sizeof_alert : Int))
    (ha : ¬ (r.n = -1 ∧ r.errno = NGX_EAGAIN)) : ipc_read_socket z r = NGX_ERROR := by
  obtain ⟨hlo, hhi⟩ := hwf
  unfold ipc_read_socket
  by_cases h1 : r.n = -1
  · have he : ¬ r.errno = NGX_EAGAIN := fun he => ha ⟨h1, he⟩
    simp [h1, he]
  · by_cases h2 : r.n = 0
    · simp [h2]
    · have h3 : r.n % 2 ^ 64 = r.n :=
        Int.emod_eq_of_lt (by omega) (by
          have : (z.sizeof_alert : Int) < 2 ^ 64 := by exact_mod_cast hz2
          omega)
      have h4 : r.n < (z.sizeof_alert : Int) := by omega
      norm_num at h3
      simp [h1, h2, h3, h4]

theorem read_loop_spec (z : Sizes) (slot : Int) (use_epoll : Bool) (hz : 0 < z.sizeof_alert)
    (hz2 : z.sizeof_alert < 2 ^ 64) :
    ∀ rs : List read_result, (∀ r ∈ rs, read_wf z r) →
      (ipc_read_loop z slot use_epoll rs).dispatched
          = (rs.takeWhile (read_full z)).map dispatch_args ∧
      (ipc_read_loop z slot use_epoll rs).warned
          = ((rs.takeWhile (read_full z)).filter
              (fun r => decide (slot ≠ r.buf.dst_slot))).map (fun r => r.buf.dst_slot) ∧
      (ipc_read_loop z slot use_epoll rs).reads
          = min ((rs.takeWhile (read_full z)).length + 1) rs.length ∧
      (ipc_read_loop z slot use_epoll rs).status
          = (match rs.dropWhile (read_full z) with
             | [] => read_status.reading
             | r :: _ => if read_again r then read_status.returned else read_status.closed) := by
  intro rs
  induction rs with
  | nil => intro _; exact ⟨rfl, rfl, rfl, rfl⟩
  | cons r rs ih =>
    intro hwf
    have hr := hwf r (List.mem_cons_self _ _)
    obtain ⟨ih1, ih2, ih3, ih4⟩ := ih (fun x hx => hwf x (List.mem_cons_of_mem _ hx))
    have hpos : ¬ (z.sizeof_alert : Int) = NGX_ERROR := by unfold NGX_ERROR; omega
    have hpos2 : ¬ (z.sizeof_alert : Int) = NGX_AGAIN := by unfold NGX_AGAIN; omega
    by_cases hf : r.n = (z.sizeof_alert : Int)
    · have hs := read_socket_full z r hz hz2 hf
      have hfull : read_full z r = true := by simp [read_full, hf]
      have e : ipc_read_loop z slot use_epoll (r :: rs) =
          { ipc_read_loop z slot use_epoll rs with
            dispatched := dispatch_args r :: (ipc_read_loop z slot use_epoll rs).dispatched,
            warned := (if slot ≠ r.buf.dst_slot then [r.buf.dst_slot] else [])
                        ++ (ipc_read_loop z slot use_epoll rs).warned,
            reads := (ipc_read_loop z slot use_epoll rs).reads + 1 } := by
        simp only [ipc_read_loop, hs, hpos, hpos2, if_false, ne_eq, not_true, dispatch_args]
      rw [e]
      simp only [List.takeWhile_cons, hfull, if_true, List.map_cons, List.dropWhile_cons,
        List.length_cons, ih1, ih2, ih3, ih4, List.filter_cons]
      refine ⟨trivial, ?_, by omega, trivial⟩
      by_cases hd : slot = r.buf.dst_slot
      · simp [hd]
      · simp [hd]
    · have hfull : read_full z r = false := by simp [read_full, hf]
      by_cases ha : r.n = -1 ∧ r.errno = NGX_EAGAIN
      · have hs := read_socket_again z r ha.1 ha.2
        have hag : read_again r = true := by simp [read_again, ha.1, ha.2]
        have hne : ¬ NGX_AGAIN = NGX_ERROR := by decide
        simp [ipc_read_loop, hs, hne, hfull, hag]
      · have hs := read_socket_error z r hz2 hr hf ha
        have hag : read_again r = false := by simpa [read_again] using ha
        simp [ipc_read_loop, hs, hfull, hag]

/-- C9: over any answers to its successive reads that obey the contract of `read`,
one run of `ipc_read_handler` calls the handler once for each whole frame read
before the first answer that is not a whole frame, in read order, with the
`src_slot`, `code` and payload of that frame, whatever the `dst_slot` of the frame
and the slot of the reader; a would-block ends the run with the connection open,
any other answer that is not a whole frame (error, zero bytes, short read) ends it
with the connection closed and nothing dispatched for that read; `ipc_read_socket`
returns only `NGX_AGAIN`, `NGX_ERROR` or the frame size, and the run never ends in
the assertion.  A run entered with `ev->timedout` set reads and dispatches nothing. -/
theorem ipc_read_handler_dispatch (z : Sizes) (slot : Int) (use_epoll : Bool)
    (rs : List read_result) (hz : 0 < z.sizeof_alert) (hz2 : z.sizeof_alert < 2 ^ 64)
    (hwf : ∀ r ∈ rs, read_wf z r) :
    (ipc_read_handler z slot use_epoll false rs).dispatched
        = (rs.takeWhile (read_full z)).map dispatch_args ∧
    (ipc_read_handler z slot use_epoll false rs).reads
        = min ((rs.takeWhile (read_full z)).length + 1) rs.length ∧
    (ipc_read_handler z slot use_epoll false rs).status
        = (match rs.dropWhile (read_full z) with
           | [] => read_status.reading
           | r :: _ => if read_again r then read_status.returned else read_status.closed) ∧
    (ipc_read_handler z slot use_epoll false rs).status ≠ read_status.assert_failed ∧
    (∀ r ∈ rs, ipc_read_socket z r = NGX_AGAIN ∨ ipc_read_socket z r = NGX_ERROR ∨
      ipc_read_socket z r = (z.sizeof_alert : Int)) ∧
    ipc_read_handler z slot use_epoll true rs =
      { dispatched := [], warned := [], reads := 0, del_conn := false,
        status := read_status.returned } := by
  obtain ⟨h1, _, h3, h4⟩ := read_loop_spec z slot use_epoll hz hz2 rs hwf
  have hrun : ipc_read_handler z slot use_epoll false rs = ipc_read_loop z slot use_epoll rs := by
    simp [ipc_read_handler]
  rw [hrun]
  refine ⟨h1, h3, h4, ?_, ?_, by simp [ipc_read_handler]⟩
  · rw [h4]
    cases rs.dropWhile (read_full z) with
    | nil => simp
    | cons r _ => by_cases ha : read_again r = true <;> simp [ha]
  · intro r hr
    by_cases hf : r.n = (z.sizeof_alert : Int)
    · exact Or.inr (Or.inr (read_socket_full z r hz hz2 hf))
    · by_cases ha : r.n = -1 ∧ r.errno = NGX_EAGAIN
      · exact Or.inl (read_socket_again z r ha.1 ha.2)
      · exact Or.inr (Or.inl (read_socket_error z r hz2 (hwf r hr) hf ha))

theorem ipc_read_handler_dispatch_witness :
    (ipc_read_handler demo_sizes 1 true false demo_reads).dispatched
        = [(0, 7, demo_ping), (2, 8, [1])] ∧
    (ipc_read_handler demo_sizes 1 true false demo_reads).reads = 3 ∧
    (ipc_read_handler demo_sizes 1 true false demo_reads).status = read_status.closed := by
  have hwf : ∀ r ∈ demo_reads, read_wf demo_sizes r := by
    intro r hr
    simp only [demo_reads, List.mem_cons, List.mem_singleton, List.mem_nil_iff, or_false] at hr
    rcases hr with rfl | rfl | rfl | rfl <;> exact ⟨by decide, by decide⟩
  obtain ⟨h1, h2, h3, _⟩ :=
    ipc_read_handler_dispatch demo_sizes 1 true demo_reads (by decide) (by decide) hwf
  refine ⟨?_, ?_, ?_⟩
  · rw [h1]; decide
  · rw [h2]; decide
  · rw [h3]; decide

theorem write_loop_none (w : Nat → write_result) (fd : Int) (k : Nat) (st : State) :
    ipc_write_loop w fd (k + 1) st none = .ok (st, none) := rfl

theorem alert_single_write (z : Sizes) (w : Nat → write_result) (st : State) (slot : Int)
    (code : Nat) (data : List Nat) (n : Nat) (proc : ipc_process_t) (c : ngx_connection_t)
    (h0 : 0 ≤ slot) (hself : st.memstore_slot ≠ slot)
    (hp : st.process[slot.toNat]? = some proc)
    (hpc : proc.c = some c) (hc : c.data = .proc slot.toNat)
    (hfirst : proc.wevd_first = none) (hlast : proc.wevd_last = none)
    (hn : n < z.capacity) (hd : n ≤ data.length)
    (hw : (w st.nwrites).n ≠ -1) :
    ipc_alert z w st slot code data n = .ok (NGX_OK,
      { st with
        heap := st.heap ++ [none],
        nwrites := st.nwrites + 1,
        written := st.written ++
          [⟨c.fd, mk_alert z st.memstore_slot slot code data n, (w st.nwrites).n⟩],
        process := st.process.set slot.toNat proc }) := by
  have hi : slot.toNat < st.process.length := by
    by_contra hlt
    rw [List.getElem?_eq_none (by omega)] at hp
    simp at hp
  have hsd : ¬ (mk_alert z st.memstore_slot slot code data n).src_slot
      = (mk_alert z st.memstore_slot slot code data n).dst_slot := hself
  have hproc : ({ proc with wevd_first := none, wevd_last := none } : ipc_process_t) = proc := by
    cases proc
    simp only at hfirst hlast
    simp [hfirst, hlast]
  simp only [ipc_alert, hn, not_true, if_false, not_lt.mpr hd, hsd, not_not, not_lt.mpr h0, hp,
    ipc_alert_enqueue, ngx_alloc, hlast, hfirst, if_true, hpc, ipc_write_handler, hc,
    List.getElem?_set_self hi, List.length_append, List.length_singleton, ipc_write_loop,
    heap_get, List.getElem?_concat_length, Option.join, ipc_write_alert_fd, hw, ngx_free,
    List.set_set, List.set_append_right, hproc, write_loop_none, Option.some_bind, id]
  simp [List.getElem?_set_self hi, write_loop_none]
  rw [← hpc, hproc]

theorem read_one_frame (z : Sizes) (slot : Int) (use_epoll : Bool) (f : ipc_alert_t)
    (hz : 0 < z.sizeof_alert) (hz2 : z.sizeof_alert < 2 ^ 64) :
    ipc_read_handler z slot use_epoll false (pipe_reads z [f]) =
      { dispatched := [(f.src_slot, f.code, f.data)],
        warned := if slot ≠ f.dst_slot then [f.dst_slot] else [],
        reads := 2, del_conn := false, status := read_status.returned } := by
  have hpos : ¬ (z.sizeof_alert : Int) = NGX_ERROR := by unfold NGX_ERROR; omega
  have hpos2 : ¬ (z.sizeof_alert : Int) = NGX_AGAIN := by unfold NGX_AGAIN; omega
  have hne : ¬ NGX_AGAIN = NGX_ERROR := by decide
  have h1 := read_socket_full z { n := (z.sizeof_alert : Int), errno := 0, buf := f } hz hz2 rfl
  have h2 := read_socket_again z
    { n := -1, errno := NGX_EAGAIN, buf := { src_slot := 0, dst_slot := 0, code := 0, data := [] } }
    rfl rfl
  simp only [ipc_read_handler, pipe_reads, List.map_cons, List.map_nil, List.singleton_append,
    ipc_read_loop, h1, h2, hpos, hpos2, hne, if_false, if_true, ne_eq, not_true,
    Bool.false_eq_true]
  simp

/-- C2: for every slot `dst` other than the sender's own that holds a bound write
connection and an empty queue, every code and every payload of `n` bytes with `n`
below the capacity, if the `write` takes the whole frame then `ipc_alert` returns
`NGX_OK` with nothing left queued, and one run of `ipc_read_handler` at `dst` on the
pipe holding what was written calls the handler exactly once, with the sender's
slot as `src`, the same code, and a payload block whose first `n` bytes are the
payload and whose other bytes are zero; the run ends on would-block with the
connection open and without a warning. -/
theorem ipc_alert_dispatched_once (z : Sizes) (w : Nat → write_result) (st : State)
    (dst : Int) (code : Nat) (data : List Nat) (n : Nat) (proc : ipc_process_t)
    (c : ngx_connection_t) (use_epoll : Bool)
    (hz : 0 < z.sizeof_alert) (hz2 : z.sizeof_alert < 2 ^ 64)
    (h0 : 0 ≤ dst) (hself : st.memstore_slot ≠ dst)
    (hp : st.process[dst.toNat]? = some proc)
    (hpc : proc.c = some c) (hc : c.data = .proc dst.toNat)
    (hfirst : proc.wevd_first = none) (hlast : proc.wevd_last = none)
    (hn : n < z.capacity) (hd : n ≤ data.length)
    (hw : (w st.nwrites).n = (z.sizeof_alert : Int)) :
    ∃ st1, ipc_alert z w st dst code data n = .ok (NGX_OK, st1) ∧
      queue_frames st1 dst.toNat = [] ∧
      ipc_read_handler z dst use_epoll false (pipe_reads z (frames_written_since st st1 c.fd)) =
        { dispatched := [(st.memstore_slot, code, data.take n ++ List.replicate (z.capacity - n) 0)],
          warned := [], reads := 2, del_conn := false, status := read_status.returned } := by
  have hne : (w st.nwrites).n ≠ -1 := by rw [hw]; omega
  have hi : dst.toNat < st.process.length := by
    by_contra hlt
    rw [List.getElem?_eq_none (by omega)] at hp
    simp at hp
  refine ⟨_, alert_single_write z w st dst code data n proc c h0 hself hp hpc hc hfirst hlast
    hn hd hne, ?_, ?_⟩
  · simp [queue_frames, List.getElem?_set_self hi, hfirst, queue_walk]
  · have hfr : frames_written_since st
        { st with
          heap := st.heap ++ [none],
          nwrites := st.nwrites + 1,
          written := st.written ++
            [⟨c.fd, mk_alert z st.memstore_slot dst code data n, (w st.nwrites).n⟩],
          process := st.process.set dst.toNat proc } c.fd
        = [mk_alert z st.memstore_slot dst code data n] := by
      simp [frames_written_since]
    rw [hfr, read_one_frame z dst use_epoll _ hz hz2]
    simp [mk_alert, ngx_memcpy]

theorem ipc_alert_dispatched_once_witness :
    ∃ st1, ipc_alert demo_sizes demo_writes_ok demo_state 1 7 demo_ping 4 = .ok (NGX_OK, st1) ∧
      queue_frames st1 (1 : Int).toNat = [] ∧
      ipc_read_handler demo_sizes 1 true false
          (pipe_reads demo_sizes (frames_written_since demo_state st1 13)) =
        { dispatched := [(0, 7, demo_ping.take 4 ++ List.replicate (demo_sizes.capacity - 4) 0)],
          warned := [], reads := 2, del_conn := false, status := read_status.returned } :=
  ipc_alert_dispatched_once demo_sizes demo_writes_ok demo_state 1 7 demo_ping 4 _
    { fd := 13, data := .proc 1, read_handler := false, write_handler := true,
      read_event := false } true
    (by decide) (by decide) (by decide) (by decide) rfl rfl rfl rfl rfl (by decide) (by decide)
    rfl

/-- The run of `ipc_open` in the example where `ngx_nonblocking` fails at index 1:
`NGX_ERROR`, slot 0 provisioned, slot 1 inactive with its two descriptors closed. -/
theorem ipc_open_error_example :
    ipc_open demo_host demo_pipes_fail (ipc_create 4 0 0) 3 = .ok (NGX_ERROR,
      { demo_opened with
        process := (demo_opened.process.set 1
          { pipe0 := -1, pipe1 := -1, c := none, wevd_first := none, wevd_last := none,
            active := false }),
        open_fds := [10, 11] }) := by
  decide

theorem scan_exit (host : Host) :
    ∀ (fuel s : Nat), host.ngx_last_process - s ≤ fuel →
      ¬ (ipc_open_scan host fuel s < host.ngx_last_process ∧
          host.pid (ipc_open_scan host fuel s) ≠ -1) := by
  intro fuel
  induction fuel with
  | zero =>
    intro s h
    simp only [ipc_open_scan]
    omega
  | succ k ih =>
    intro s h
    by_cases hc : s < host.ngx_last_process ∧ host.pid s ≠ -1
    · have hlt : host.ngx_last_process - (s + 1) ≤ k := by omega
      have e : ipc_open_scan host (k + 1) s = ipc_open_scan host k (s + 1) := by
        simp [ipc_open_scan, hc]
      rw [e]
      exact ih (s + 1) hlt
    · have e : ipc_open_scan host (k + 1) s = s := by
        simp only [ipc_open_scan, hc, if_false]
      rw [e]
      exact hc

/-- C8, the code at the failing input: with host slot 0 taken, the scan of
`ipc_open` stops at `s = 1` for the first worker, the slot the host will give it,
yet the descriptor provisioned and marked active is slot 0, and slot 1 stays
inactive. -/
theorem ipc_open_ignores_scan :
    ipc_open_s_values demo_host_busy 1 0 = [1] ∧
    ∃ st1, ipc_open demo_host_busy demo_pipes (ipc_create 4 0 0) 1 = .ok (NGX_OK, st1) ∧
      st1.process.map (fun p => p.active) = [true, false, false, false] := by
  refine ⟨by decide, _, rfl, by decide⟩

end Nchan
